import Mathlib

/-!
Verification of `src/retriever/retriever.py` (makdong/C4RAG).

Shallow embedding conventions:
* Python strings are Lean `String`s; documents handed to the chunker are
  `List Char` (Python string slicing is modelled by `drop`/`take`).
* Machine floats do not appear: all similarity scores are exact rationals.
  The embedding backend (`HuggingFaceEmbeddings`) plus
  `sklearn.metrics.pairwise.cosine_similarity` are external collaborators;
  they are abstracted as an `EmbeddingService` providing the cosine
  similarity `sim a b` between the embeddings of texts `a` and `b`
  (the code requests unit-normalised embeddings).
* `np.argsort(_, axis=0)` is modelled by a stable ascending insertion sort
  of the index list, which is the algorithm numpy uses on the small arrays
  appearing here; the subsequent `[::-1]` / `[:k]` are `reverse` / `take k`.
* Fallible Python code is an `Except PyError _`; a Python function that
  falls off the end without returning is modelled as returning
  `RetValue.pyNone` (Python `None`).
* Calls into the lexical index (`BM25Retriever.invoke`) and into the
  embedding backend are recorded in an explicit effect log so that
  "fails before any lexical or embedding call" is expressible.
-/

/-- Python-level failure modes that the modelled code can raise.
`assertionError` is the `assert` in `HybridRetriever.retrieve`;
`valueError` is sklearn's `check_array` rejecting an empty input matrix;
`nameError` is Python's `UnboundLocalError` (a `NameError`) for reading an
unassigned local; `indexError` is `list[0]` on an empty list. -/
inductive PyError
  | assertionError
  | valueError
  | nameError
  | indexError
deriving DecidableEq, Repr

/-- The spec's `InvalidArgument` class (§7) covers the unrecognised
`return_type` assertion and the empty-candidates failure; in the code those
surface as `AssertionError` and `ValueError` respectively. -/
def PyError.isInvalidArgument : PyError → Bool
  | .assertionError => true
  | .valueError => true
  | _ => false

/-- A value returned by one of the `retrieve` methods: a list of passage
texts, a joined text, or Python `None` (when the code falls off the end of
the function without hitting a `return`). -/
inductive RetValue
  | list (l : List String)
  | text (s : String)
  | pyNone
deriving DecidableEq, Repr

/-- External calls made during a retrieval, in order: one BM25
`invoke` (`lexical`), one `embed_query` (`embedQuery`), and each
`embed_documents` batch (`embedDocs`). -/
inductive Effect
  | lexical
  | embedQuery
  | embedDocs
deriving DecidableEq, Repr

/-- Black-box embedding backend: `sim a b` is the cosine similarity between
the embedding of text `a` and the embedding of text `b`. -/
structure EmbeddingService where
  sim : String → String → ℚ

/-! ### Chunker: `split_document_with_overlap` (retriever.py lines 13-27) -/

/-- Python `document[start : start + c]` for a non-negative `start`. -/
def pySlice (d : List Char) (start c : Nat) : List Char :=
  (d.drop start).take c

/-- Fuel-indexed embedding of the `while start < len(document)` loop of
`split_document_with_overlap`.  Each iteration slices a chunk, appends it,
advances `start` by `chunk_size - overlap_size`, and breaks when the chunk
is shorter than `chunk_size`.  `none` means the fuel ran out, i.e. the
Python loop had not terminated after `fuel` iterations.  (`c - o` is `Nat`
subtraction, which agrees with Python for `o ≤ c`; all claims about this
function assume `o < c` or `o = c`.) -/
def splitLoop (d : List Char) (c o : Nat) : Nat → Nat → List (List Char) → Option (List (List Char))
  | 0, _, _ => none
  | fuel + 1, start, acc =>
    if start < d.length then
      let chunk := pySlice d start c
      let acc' := acc ++ [chunk]
      if chunk.length < c then some acc'
      else splitLoop d c o fuel (start + (c - o)) acc'
    else some acc

/-- `split_document_with_overlap(document, chunk_size, overlap_size)`,
run with enough fuel for the terminating case (`o < c` needs at most
`d.length + 1` iterations). -/
def split_document_with_overlap (d : List Char) (c o : Nat) : Option (List (List Char)) :=
  splitLoop d c o (d.length + 1) 0 []

theorem pySlice_length (d : List Char) (start c : Nat) :
    (pySlice d start c).length = min c (d.length - start) := by
  simp [pySlice]

theorem splitLoop_isSome (d : List Char) (c o : Nat) (ho : o < c) :
    ∀ fuel start acc, d.length - start < fuel → (splitLoop d c o fuel start acc).isSome := by
  intro fuel
  induction fuel with
  | zero => intro start acc h; omega
  | succ f ih =>
    intro start acc h
    rw [splitLoop]
    by_cases hs : start < d.length
    · simp only [hs, if_true]
      by_cases hshort : (pySlice d start c).length < c
      · simp [hshort]
      · simp only [hshort, if_false]
        apply ih
        have hlen := pySlice_length d start c
        omega
    · simp [hs]

theorem splitLoop_closedForm (d : List Char) (c o : Nat) :
    ∀ fuel start acc res, splitLoop d c o fuel start acc = some res →
      ∃ m, res = acc ++ (List.range m).map (fun j => pySlice d (start + j * (c - o)) c) ∧
        ∀ j, j + 1 < m → (pySlice d (start + j * (c - o)) c).length = c := by
  intro fuel
  induction fuel with
  | zero => intro start acc res h; simp [splitLoop] at h
  | succ f ih =>
    intro start acc res h
    rw [splitLoop] at h
    by_cases hs : start < d.length
    · simp only [hs, if_true] at h
      by_cases hshort : (pySlice d start c).length < c
      · simp only [hshort, if_true, Option.some.injEq] at h
        refine ⟨1, ?_, ?_⟩
        · rw [← h]
          simp [List.range_succ]
        · intro j hj; omega
      · simp only [hshort, if_false] at h
        obtain ⟨m, hres, hlen⟩ := ih (start + (c - o)) (acc ++ [pySlice d start c]) res h
        have hmaps : List.map (fun j => pySlice d (start + (c - o) + j * (c - o)) c) (List.range m)
            = List.map ((fun j => pySlice d (start + j * (c - o)) c) ∘ Nat.succ) (List.range m) := by
          apply List.map_congr_left
          intro j _
          simp only [Function.comp_apply]
          have harith : start + (c - o) + j * (c - o) = start + Nat.succ j * (c - o) := by
            rw [Nat.succ_mul]; omega
          rw [harith]
        refine ⟨m + 1, ?_, ?_⟩
        · rw [hres, hmaps, List.range_succ_eq_map, List.map_cons, List.map_map, List.append_assoc]
          simp
        · intro j hj
          cases j with
          | zero =>
            have h1 := pySlice_length d start c
            simp only [Nat.zero_mul, Nat.add_zero]
            omega
          | succ j' =>
            have := hlen j' (by omega)
            have heq : start + Nat.succ j' * (c - o) = start + (c - o) + j' * (c - o) := by
              rw [Nat.succ_mul]; omega
            rw [heq]
            exact this
    · simp only [hs, if_false, Option.some.injEq] at h
      exact ⟨0, by simp [← h], by intro j hj; omega⟩

/-! ### `np.argsort(..., axis=0)` followed by `[::-1]` and `[:k]` -/

/-- Ascending argsort of a score column, modelled as a stable insertion
sort of the index list `[0, …, n-1]` by score (numpy's default sort is an
insertion sort on the small arrays handled here, and is stable there;
ties therefore keep the smaller index first in ascending order). -/
def argsort (xs : List ℚ) : List Nat :=
  List.insertionSort (fun i j => xs.getD i 0 ≤ xs.getD j 0) (List.range xs.length)

/-- `np.argsort(scores, axis=0)[::-1][:k]` on an `(n, 1)` score column,
with each 1-element row collapsed via `idx_array[0]`
(retriever.py line 264). -/
def rerankIndices (xs : List ℚ) (k : Nat) : List Nat :=
  ((argsort xs).reverse).take k

theorem argsort_perm (xs : List ℚ) : (argsort xs).Perm (List.range xs.length) :=
  List.perm_insertionSort _ _

theorem argsort_nodup (xs : List ℚ) : (argsort xs).Nodup :=
  (argsort_perm xs).nodup_iff.mpr (List.nodup_range _)

theorem argsort_length (xs : List ℚ) : (argsort xs).length = xs.length := by
  rw [(argsort_perm xs).length_eq, List.length_range]

theorem mem_argsort_lt (xs : List ℚ) {i : Nat} (h : i ∈ argsort xs) : i < xs.length := by
  have := (argsort_perm xs).mem_iff.mp h
  simpa [List.mem_range] using this

theorem argsort_sorted (xs : List ℚ) :
    List.Sorted (fun i j => xs.getD i 0 ≤ xs.getD j 0) (argsort xs) := by
  haveI : IsTotal Nat (fun i j => xs.getD i 0 ≤ xs.getD j 0) :=
    ⟨fun a b => le_total _ _⟩
  haveI : IsTrans Nat (fun i j => xs.getD i 0 ≤ xs.getD j 0) :=
    ⟨fun a b c h₁ h₂ => le_trans h₁ h₂⟩
  exact List.sorted_insertionSort _ _

theorem rerankIndices_nodup (xs : List ℚ) (k : Nat) : (rerankIndices xs k).Nodup := by
  have h1 : ((argsort xs).reverse).Nodup := by
    rw [List.nodup_reverse]; exact argsort_nodup xs
  exact h1.sublist (List.take_sublist _ _)

theorem rerankIndices_length (xs : List ℚ) (k : Nat) :
    (rerankIndices xs k).length = min xs.length k := by
  rw [rerankIndices, List.length_take, List.length_reverse, argsort_length, Nat.min_comm]

theorem mem_rerankIndices_lt (xs : List ℚ) (k : Nat) {i : Nat}
    (h : i ∈ rerankIndices xs k) : i < xs.length := by
  have h1 : i ∈ (argsort xs).reverse := (List.take_sublist _ _).mem h
  exact mem_argsort_lt xs (List.mem_reverse.mp h1)

theorem rerankIndices_sorted_desc (xs : List ℚ) (k : Nat) :
    List.Pairwise (fun a b => xs.getD b 0 ≤ xs.getD a 0) (rerankIndices xs k) := by
  have h1 : List.Pairwise (fun a b => xs.getD b 0 ≤ xs.getD a 0) ((argsort xs).reverse) := by
    rw [List.pairwise_reverse]
    exact argsort_sorted xs
  exact h1.sublist (List.take_sublist _ _)

/-- `[i, j]` is a sublist of `range n` whenever `i < j < n`. -/
theorem pair_sublist_range {i j : Nat} (hij : i < j) :
    ∀ {n : Nat}, j < n → [i, j].Sublist (List.range n) := by
  intro n
  induction n with
  | zero => omega
  | succ n ih =>
    intro hj
    rw [List.range_succ]
    by_cases hjn : j < n
    · exact (ih hjn).trans (List.sublist_append_left _ _)
    · have hj' : j = n := by omega
      subst hj'
      exact List.Sublist.append
        (List.singleton_sublist.mpr (List.mem_range.mpr hij)) (List.Sublist.refl _)

/-- Stability of the modelled argsort: an earlier index with an equal or
smaller score stays before a later index in the ascending order. -/
theorem pair_sublist_argsort {xs : List ℚ} {i j : Nat} (hij : i < j) (hj : j < xs.length)
    (hle : xs.getD i 0 ≤ xs.getD j 0) : [i, j].Sublist (argsort xs) :=
  List.pair_sublist_insertionSort hle (pair_sublist_range hij hj)

/-- A pair that is a sublist of a duplicate-free list stays a sublist of
any `take`-prefix that still contains its second element. -/
theorem pair_sublist_take {a b : Nat} :
    ∀ (l : List Nat) (k : Nat), [a, b].Sublist l → l.Nodup → b ∈ l.take k →
      [a, b].Sublist (l.take k) := by
  intro l
  induction l with
  | nil => intro k h _ _; simp at h
  | cons c t ih =>
    intro k h hnd hb
    have hab : a ≠ b := by
      have : ([a, b] : List Nat).Nodup := h.nodup hnd
      simp at this
      exact this
    cases k with
    | zero => simp at hb
    | succ k' =>
      rw [List.take_succ_cons] at hb ⊢
      cases h with
      | cons₂ _ h' =>
        -- here `c = a` and `[b] <+ t`
        have hbt : b ∈ t := List.singleton_sublist.mp h'
        have hbtake : b ∈ t.take k' := by
          rcases List.mem_cons.mp hb with hba | hb'
          · exact absurd hba.symm hab
          · exact hb'
        exact List.Sublist.cons₂ _ (List.singleton_sublist.mpr hbtake)
      | cons _ h' =>
        -- here `[a, b] <+ t`
        have hbt : b ∈ t := by
          have : b ∈ ([a, b] : List Nat) := by simp
          exact h'.mem this
        have hbc : b ≠ c := by
          intro hbc
          subst hbc
          exact (List.nodup_cons.mp hnd).1 hbt
        have hbtake : b ∈ t.take k' := by
          rcases List.mem_cons.mp hb with hba | hb'
          · exact absurd hba hbc
          · exact hb'
        exact List.Sublist.cons _ (ih k' h' (List.nodup_cons.mp hnd).2 hbtake)

/-! ### String helpers: Python `str.strip`, `"\n".join`, and the
`+= passage; += "\n"` accumulation loop -/

/-- Python whitespace test for the ASCII whitespace characters relevant
here (`str.strip` with no argument strips these among others). -/
def isPyWs (c : Char) : Bool :=
  c = ' ' || c = '\t' || c = '\n' || c = '\r' || c = '\x0b' || c = '\x0c'

/-- Strip `isPyWs` characters from both ends of a character list. -/
def stripChars (l : List Char) : List Char :=
  ((l.dropWhile isPyWs).reverse.dropWhile isPyWs).reverse

/-- Python `s.strip()` (restricted to ASCII whitespace). -/
def pyStrip (s : String) : String :=
  ⟨stripChars s.data⟩

/-- Python `s.lower()` (for the ASCII return-type strings used here). -/
def pyLower (s : String) : String :=
  ⟨s.data.map Char.toLower⟩

/-- Python `sep.join(l)`. -/
def pyJoin (sep : String) : List String → String
  | [] => ""
  | [x] => x
  | x :: y :: xs => x ++ sep ++ pyJoin sep (y :: xs)

/-- The accumulation loop shared by `_rerank_passages` and
`_tri_retrieve` (lines 269-273 / 91-95): start from `""` and append
`passage` then `"\n"` for each passage. -/
def joinWithNewlines (l : List String) : String :=
  l.foldl (fun acc p => acc ++ p ++ "\n") ""

/-! ### The three retrieval engines -/

/-- The membership test of the `assert` in `HybridRetriever.retrieve`
(line 285) and of the `return_type.lower() in [...]` dispatches. -/
def recognizedReturnType (rt : String) : Bool :=
  ["list", "text", "str", "string"].contains (pyLower rt)

/-- The `return_type` dispatch at the end of `_rerank_passages` and
`_tri_retrieve` (lines 269-277 / 91-99): text-like values get the
newline-accumulated, stripped text; `"list"` gets the list; anything else
falls off the end of the Python function, yielding `None`. -/
def formatTextOrList (lst : List String) (rt : String) : RetValue :=
  if ["text", "str", "string"].contains (pyLower rt) then
    .text (pyStrip (joinWithNewlines lst))
  else if pyLower rt = "list" then .list lst
  else .pyNone

/-- `HybridRetriever._rerank_passages` (lines 238-277): embed the query
and the candidates, take cosine similarities against the query, argsort
descending, keep the first `reranking_top_k` indices, and map them back to
passages.  An empty candidate list makes sklearn's `cosine_similarity`
raise `ValueError` (zero samples). -/
def rerank_passages (E : EmbeddingService) (query : String) (passages_list : List String)
    (reranking_top_k : Nat) (return_type : String) : Except PyError RetValue :=
  if passages_list = [] then .error .valueError
  else
    let sims := passages_list.map (fun p => E.sim p query)
    let lst := (rerankIndices sims reranking_top_k).map (fun i => passages_list.getD i "")
    .ok (formatTextOrList lst return_type)

/-- `HybridRetriever.retrieve` (lines 280-290): assert the return type,
invoke the BM25 index `L`, then rerank.  The second component is the log
of external calls actually made, in order. -/
def hybridRetrieve (E : EmbeddingService) (L : String → List String) (query : String)
    (reranking_top_k : Nat) (return_type : String) : Except PyError RetValue × List Effect :=
  if recognizedReturnType return_type then
    (rerank_passages E query (L query) reranking_top_k return_type,
      [.lexical, .embedQuery, .embedDocs])
  else (.error .assertionError, [])

/-- `Retriever.retrieve` (lines 168-177, the lexical-only engine): invoke
BM25 first, then dispatch on `return_type` — `"list"` gives the passage
texts, text-like gives `"\n".join(...)` with no strip, and any other value
falls off the end of the function (Python `None`).  There is no assert. -/
def lexRetrieve (L : String → List String) (query : String) (return_type : String) :
    Except PyError RetValue × List Effect :=
  (if pyLower return_type = "list" then .ok (.list (L query))
   else if ["text", "str", "string"].contains (pyLower return_type) then
     .ok (.text (pyJoin "\n" (L query)))
   else .ok .pyNone,
   [.lexical])

/-- The `final_similarities` matrix of `_tri_retrieve` (lines 66-86).
`embed_documents(irrelevant_document)` receives a *string*, which Python
iterates character by character, so the "irrelevant" similarity matrix has
one column per character of the distractor: entry `(i, j)` is
`1 * sim(candidate_i, query) + 0.7 * sim(candidate_i, j-th character)`. -/
def triFinalSims (E : EmbeddingService) (query irrelevant_document : String)
    (passages_list : List String) : List (List ℚ) :=
  passages_list.map (fun p =>
    irrelevant_document.data.map (fun ch =>
      1 * E.sim p query + (7 / 10 : ℚ) * E.sim p (String.mk [ch])))

/-- The index selected by `_tri_retrieve` (lines 87-90):
`np.argsort(final_similarities, axis=0)` sorts every column independently;
`[::-1][:1]` keeps the single row of per-column top indices, and the list
comprehension reads `idx_array[0]`, i.e. only column 0 — the column of the
*first character* of the distractor. -/
def triTopIndex (E : EmbeddingService) (query irrelevant_document : String)
    (passages_list : List String) : Option Nat :=
  (rerankIndices ((triFinalSims E query irrelevant_document passages_list).map
    (fun row => row.getD 0 0)) 1).head?

/-- `TriRetriever._tri_retrieve` (lines 47-99) with its effect log:
`embed_query`, `embed_documents(passages)`, cosine against the query
(ValueError on zero candidate rows), `embed_documents(distractor-chars)`,
cosine against those (ValueError on an empty distractor), scoring,
selection, formatting. -/
def tri_retrieve (E : EmbeddingService) (query irrelevant_document : String)
    (passages_list : List String) (return_type : String) :
    Except PyError RetValue × List Effect :=
  if passages_list = [] then (.error .valueError, [.embedQuery, .embedDocs])
  else if irrelevant_document.data = [] then
    (.error .valueError, [.embedQuery, .embedDocs, .embedDocs])
  else
    match triTopIndex E query irrelevant_document passages_list with
    | none => (.error .indexError, [.embedQuery, .embedDocs, .embedDocs])
    | some i =>
      (.ok (formatTextOrList [passages_list.getD i ""] return_type),
        [.embedQuery, .embedDocs, .embedDocs])

/-- `TriRetriever.retrieve` (lines 101-111): forwards to `_tri_retrieve`
*without* passing `return_type`, so the callee always runs with its
default `"list"`. -/
def triRetrieverRetrieve (E : EmbeddingService) (query irrelevant_document : String)
    (passages_list : List String) (return_type : String) :
    Except PyError RetValue × List Effect :=
  tri_retrieve E query irrelevant_document passages_list "list"

/-! ### Engine construction (`Retriever.__init__` lines 116-165,
`HybridRetriever.__init__` lines 181-235) -/

/-- The two variables named `split_docs` live in `__init__`: the attribute
`self.split_docs` (assigned only in the cache-hit branch, line 130/202)
and the function-local `split_docs` (assigned only in the re-chunk branch,
line 150/222).  `none` models "not assigned on this path". -/
structure InitLocals where
  selfSplitDocs : Option (List String)
  localSplitDocs : Option (List String)

/-- Which of the two `split_docs` bindings each branch of `__init__`
assigns: on a cache hit only the attribute, otherwise only the local. -/
def initLocalsAfterBranch (use_cache cache_exists : Bool)
    (cachedDocs freshDocs : List String) : InitLocals :=
  if use_cache && cache_exists then ⟨some cachedDocs, none⟩
  else ⟨none, some freshDocs⟩

/-- `Retriever.__init__` (lines 116-165): after the cache/re-chunk branch,
line 162 evaluates the *local* `split_docs` to build the BM25 index; on
the cache-hit path that local was never assigned, so Python raises
`UnboundLocalError` (a `NameError`).  On success the result is the corpus
the lexical index is built from. -/
def retrieverInit (use_cache cache_exists : Bool) (cachedDocs freshDocs : List String) :
    Except PyError (List String) :=
  match (initLocalsAfterBranch use_cache cache_exists cachedDocs freshDocs).localSplitDocs with
  | none => .error .nameError
  | some docs => .ok docs

/-- `HybridRetriever.__init__` (lines 181-235): identical branch structure,
with line 233 reading the same unassigned local on the cache-hit path. -/
def hybridRetrieverInit (use_cache cache_exists : Bool) (cachedDocs freshDocs : List String) :
    Except PyError (List String) :=
  match (initLocalsAfterBranch use_cache cache_exists cachedDocs freshDocs).localSplitDocs with
  | none => .error .nameError
  | some docs => .ok docs

/-! ### Lemmas about the string helpers -/

theorem str_data_append (a b : String) : (a ++ b).data = a.data ++ b.data := by
  cases a
  cases b
  rfl

theorem str_ext {a b : String} (h : a.data = b.data) : a = b := by
  cases a
  cases b
  exact congrArg String.mk (by simpa using h)

theorem joinWithNewlines_foldl (l : List String) :
    ∀ a : String, l.foldl (fun acc p => acc ++ p ++ "\n") a = a ++ joinWithNewlines l := by
  induction l with
  | nil =>
    intro a
    apply str_ext
    simp [joinWithNewlines, str_data_append]
  | cons x xs ih =>
    intro a
    simp only [joinWithNewlines, List.foldl_cons]
    rw [ih (a ++ x ++ "\n"), ih ("" ++ x ++ "\n")]
    apply str_ext
    simp [str_data_append]

theorem joinWithNewlines_cons (x : String) (l : List String) :
    joinWithNewlines (x :: l) = x ++ "\n" ++ joinWithNewlines l := by
  rw [joinWithNewlines, List.foldl_cons, joinWithNewlines_foldl]
  apply str_ext
  simp [str_data_append]

theorem joinWithNewlines_eq_pyJoin (l : List String) (h : l ≠ []) :
    joinWithNewlines l = pyJoin "\n" l ++ "\n" := by
  induction l with
  | nil => exact absurd rfl h
  | cons x xs ih =>
    cases xs with
    | nil =>
      rw [joinWithNewlines_cons, pyJoin]
      apply str_ext
      simp [joinWithNewlines, str_data_append]
    | cons y ys =>
      rw [joinWithNewlines_cons, ih (by simp), pyJoin]
      apply str_ext
      simp [str_data_append]

theorem dropWhile_append_single (p : Char → Bool) (x : Char) :
    ∀ l : List Char, l.dropWhile p ++ [x] = [] → False := by
  intro l h
  simpa using congrArg List.length h

theorem stripChars_append_ws (l : List Char) (x : Char) (hx : isPyWs x = true) :
    stripChars (l ++ [x]) = stripChars l := by
  unfold stripChars
  by_cases hnil : l.dropWhile isPyWs = []
  · have hall : ∀ a ∈ l, isPyWs a = true := List.dropWhile_eq_nil_iff.mp hnil
    have h1 : (l ++ [x]).dropWhile isPyWs = [] := by
      rw [List.dropWhile_eq_nil_iff]
      intro a ha
      rcases List.mem_append.mp ha with h | h
      · exact hall a h
      · simp at h
        subst h
        exact hx
    rw [h1, hnil]
  · have h1 : (l ++ [x]).dropWhile isPyWs = l.dropWhile isPyWs ++ [x] := by
      induction l with
      | nil => exact absurd rfl hnil
      | cons a t iht =>
        by_cases hpa : isPyWs a = true
        · rw [List.cons_append, List.dropWhile_cons_of_pos hpa,
            List.dropWhile_cons_of_pos hpa]
          by_cases htnil : t.dropWhile isPyWs = []
          · rw [List.dropWhile_cons_of_pos hpa] at hnil
            exact absurd htnil hnil
          · exact iht (by rwa [List.dropWhile_cons_of_pos hpa] at hnil)
        · have hpa' : ¬ isPyWs a = true := hpa
          rw [List.cons_append, List.dropWhile_cons_of_neg hpa',
            List.dropWhile_cons_of_neg hpa', List.cons_append]
    rw [h1, List.reverse_append]
    simp only [List.reverse_singleton, List.singleton_append]
    rw [List.dropWhile_cons_of_pos hx]

theorem pyStrip_append_newline (s : String) : pyStrip (s ++ "\n") = pyStrip s := by
  unfold pyStrip
  congr 1
  have hdata : (s ++ "\n").data = s.data ++ ['\n'] := str_data_append s "\n"
  rw [hdata]
  exact stripChars_append_ws s.data '\n' (by rfl)

/-- The accumulate-then-strip formatting of `_rerank_passages` and
`_tri_retrieve` equals `"\n".join(...)` followed by `strip()`. -/
theorem pyStrip_joinWithNewlines (l : List String) :
    pyStrip (joinWithNewlines l) = pyStrip (pyJoin "\n" l) := by
  by_cases h : l = []
  · subst h
    rfl
  · rw [joinWithNewlines_eq_pyJoin l h, pyStrip_append_newline]

/-! ### Concrete embedding services for witnesses and counterexamples -/

/-- Every similarity is `1/2`: produces exact score ties. -/
def constEmb : EmbeddingService := ⟨fun _ _ => (1 : ℚ) / 2⟩

/-- Similarities realising the spec's contrastive example for candidates
`p1`, `p2`, query `q` and distractor `"dx"` (query similarities `1/2`,
whole-distractor similarities `9/10` and `1/10`), with the per-character
similarities against `"d"` (the first character of `"dx"`) flipped. -/
def cexEmb : EmbeddingService :=
  ⟨fun p r =>
    if p = "p1" ∧ r = "q" then 1 / 2
    else if p = "p2" ∧ r = "q" then 1 / 2
    else if p = "p1" ∧ r = "dx" then 9 / 10
    else if p = "p2" ∧ r = "dx" then 1 / 10
    else if p = "p1" ∧ r = "d" then 1 / 10
    else if p = "p2" ∧ r = "d" then 9 / 10
    else 0⟩

/-- `"alpha text"` scores `9/10` against any query, everything else `8/10`. -/
def abEmb : EmbeddingService := ⟨fun p _ => if p = "alpha text" then 9 / 10 else (8 : ℚ) / 10⟩

/-- Helper: `HybridRetriever.retrieve` with `return_type="list"` on a
non-empty candidate list returns the reranked passages and the full
effect log. -/
theorem hybridRetrieve_list_eq (E : EmbeddingService) (L : String → List String)
    (q : String) (k : Nat) (h : L q ≠ []) :
    hybridRetrieve E L q k "list"
      = (Except.ok (RetValue.list ((rerankIndices ((L q).map (fun p => E.sim p q)) k).map
          (fun i => (L q).getD i ""))),
         [Effect.lexical, Effect.embedQuery, Effect.embedDocs]) := by
  rw [hybridRetrieve, if_pos (show recognizedReturnType "list" = true from rfl)]
  simp only [rerank_passages]
  rw [if_neg h]
  rfl

/-! ### The claims -/

/-- C1 (code bug): `_tri_retrieve` is claimed to score each candidate by
`1.0 · sim_q + 0.7 · sim_d` with `sim_d` taken against one embedding of the
whole distractor string, and to return the maximal candidate.  The code
instead passes the distractor *string* to `embed_documents`, which embeds
it character by character, and the subsequent `argsort`/indexing uses only
the column of the distractor's first character.  Here: under `cexEmb` the
spec-side composite score of `"p1"` (similarity `9/10` to the whole
distractor `"dx"`) strictly exceeds that of `"p2"` (second conjunct), yet
the code returns `"p2"`, because against the first character `"d"` the
similarities are flipped (first conjunct). -/
theorem tri_retrieve_uses_first_char_of_distractor :
    (tri_retrieve cexEmb "q" "dx" ["p1", "p2"] "list").1 = Except.ok (RetValue.list ["p2"]) ∧
    cexEmb.sim "p2" "q" + (7 / 10 : ℚ) * cexEmb.sim "p2" "dx"
      < cexEmb.sim "p1" "q" + (7 / 10 : ℚ) * cexEmb.sim "p1" "dx" := by
  constructor
  · have hcol : (triFinalSims cexEmb "q" "dx" ["p1", "p2"]).map (fun row => row.getD 0 0)
        = [1 * (1 / 2 : ℚ) + 7 / 10 * (1 / 10), 1 * (1 / 2 : ℚ) + 7 / 10 * (9 / 10)] := by
      simp [triFinalSims, cexEmb]
    have hsort : argsort [1 * (1 / 2 : ℚ) + 7 / 10 * (1 / 10), 1 * (1 / 2 : ℚ) + 7 / 10 * (9 / 10)]
        = [0, 1] := by
      simp [argsort, List.insertionSort, List.orderedInsert, List.range_succ]
      norm_num
    have htop : triTopIndex cexEmb "q" "dx" ["p1", "p2"] = some 1 := by
      rw [triTopIndex, hcol, rerankIndices, hsort]
      rfl
    rw [tri_retrieve, if_neg (by decide), if_neg (by decide), htop]
    rfl
  · have h1 : cexEmb.sim "p1" "q" = 1 / 2 := rfl
    have h2 : cexEmb.sim "p2" "q" = 1 / 2 := rfl
    have h3 : cexEmb.sim "p1" "dx" = 9 / 10 := rfl
    have h4 : cexEmb.sim "p2" "dx" = 1 / 10 := rfl
    rw [h1, h2, h3, h4]
    norm_num

/-- C2: `HybridRetriever.retrieve` with a non-empty candidate list of size
`n` and `reranking_top_k = k` returns exactly `min n k` passages, all drawn
from the candidate list at pairwise-distinct candidate positions, ordered
descending by the cosine similarity of each candidate against the query. -/
theorem hybrid_rerank_width_and_order (E : EmbeddingService) (L : String → List String)
    (q : String) (k : Nat) (h : L q ≠ []) :
    ∃ idxs : List Nat,
      hybridRetrieve E L q k "list"
        = (Except.ok (RetValue.list (idxs.map (fun i => (L q).getD i ""))),
           [Effect.lexical, Effect.embedQuery, Effect.embedDocs]) ∧
      idxs.length = min (L q).length k ∧
      idxs.Nodup ∧
      (∀ i ∈ idxs, i < (L q).length) ∧
      List.Pairwise (fun a b =>
        ((L q).map (fun p => E.sim p q)).getD b 0
          ≤ ((L q).map (fun p => E.sim p q)).getD a 0) idxs ∧
      (∀ s ∈ idxs.map (fun i => (L q).getD i ""), s ∈ L q) := by
  refine ⟨rerankIndices ((L q).map (fun p => E.sim p q)) k,
    hybridRetrieve_list_eq E L q k h, ?_, rerankIndices_nodup _ _, ?_,
    rerankIndices_sorted_desc _ _, ?_⟩
  · rw [rerankIndices_length, List.length_map]
  · intro i hi
    have := mem_rerankIndices_lt _ k hi
    rwa [List.length_map] at this
  · intro s hs
    obtain ⟨i, hi, rfl⟩ := List.mem_map.mp hs
    have hilt : i < (L q).length := by
      have := mem_rerankIndices_lt _ k hi
      rwa [List.length_map] at this
    rw [List.getD_eq_getElem _ _ hilt]
    exact List.getElem_mem hilt

theorem hybrid_rerank_width_and_order_witness :
    (["a", "b", "c"] : List String) ≠ [] ∧
    ∃ idxs : List Nat,
      hybridRetrieve constEmb (fun _ => ["a", "b", "c"]) "q" 2 "list"
        = (Except.ok (RetValue.list (idxs.map (fun i => (["a", "b", "c"] : List String).getD i ""))),
           [Effect.lexical, Effect.embedQuery, Effect.embedDocs]) ∧
      idxs.length = min (["a", "b", "c"] : List String).length 2 ∧
      idxs.Nodup ∧
      (∀ i ∈ idxs, i < (["a", "b", "c"] : List String).length) ∧
      List.Pairwise (fun a b =>
        ((["a", "b", "c"] : List String).map (fun p => constEmb.sim p "q")).getD b 0
          ≤ ((["a", "b", "c"] : List String).map (fun p => constEmb.sim p "q")).getD a 0) idxs ∧
      (∀ s ∈ idxs.map (fun i => (["a", "b", "c"] : List String).getD i ""),
        s ∈ (["a", "b", "c"] : List String)) :=
  ⟨by decide, hybrid_rerank_width_and_order constEmb (fun _ => ["a", "b", "c"]) "q" 2 (by decide)⟩

/-- C3 counterexample: two candidates with *equal* cosine similarity come
back in the order `[p2, p1]` — the reverse of their candidate-list order —
because the code ascending-argsorts and then reverses, which flips ties.
The claim's stable tie-break would require `[p1, p2]`. -/
theorem rerank_equal_sims_reversed_pair :
    rerank_passages constEmb "q" ["p1", "p2"] 2 "list" = Except.ok (RetValue.list ["p2", "p1"]) ∧
    (["p2", "p1"] : List String) ≠ ["p1", "p2"] := by
  constructor
  · have h : argsort (["p1", "p2"].map (fun p => constEmb.sim p "q")) = [0, 1] := by
      simp [argsort, List.insertionSort, List.orderedInsert, List.range_succ, constEmb]
    simp only [rerank_passages, rerankIndices, h]
    rw [if_neg (by simp)]
    rfl
  · decide

/-- C3 (amended): in `_rerank_passages`, candidates with exactly equal
cosine similarity appear in the *reverse* of their candidate-list order:
for positions `i < j` with equal similarity, `j` precedes `i` in the full
descending index order, and also inside the returned `take k` window
whenever `i` made it in; the `"list"` output is exactly the passages at
those indices. -/
theorem rerank_ties_reverse_candidate_order (E : EmbeddingService) (q : String)
    (ps : List String) (k i j : Nat) (hij : i < j) (hj : j < ps.length)
    (heq : (ps.map (fun p => E.sim p q)).getD i 0 = (ps.map (fun p => E.sim p q)).getD j 0) :
    [j, i].Sublist ((argsort (ps.map (fun p => E.sim p q))).reverse) ∧
    (i ∈ rerankIndices (ps.map (fun p => E.sim p q)) k →
      [j, i].Sublist (rerankIndices (ps.map (fun p => E.sim p q)) k)) ∧
    rerank_passages E q ps k "list"
      = Except.ok (RetValue.list ((rerankIndices (ps.map (fun p => E.sim p q)) k).map
          (fun x => ps.getD x ""))) := by
  have hlen : (ps.map (fun p => E.sim p q)).length = ps.length := List.length_map _ _
  have hpair : [i, j].Sublist (argsort (ps.map (fun p => E.sim p q))) :=
    pair_sublist_argsort hij (by omega) (le_of_eq heq)
  have hrev : [j, i].Sublist ((argsort (ps.map (fun p => E.sim p q))).reverse) := by
    simpa using hpair.reverse
  refine ⟨hrev, ?_, ?_⟩
  · intro hi
    exact pair_sublist_take _ k hrev
      (by rw [List.nodup_reverse]; exact argsort_nodup _) hi
  · simp only [rerank_passages]
    rw [if_neg (List.ne_nil_of_length_pos (by omega))]
    rfl

theorem rerank_ties_reverse_candidate_order_witness :
    (0 : Nat) < 1 ∧
    (([1, 0] : List Nat).Sublist
        ((argsort ((["p1", "p2"] : List String).map (fun p => constEmb.sim p "q"))).reverse) ∧
      ((0 : Nat) ∈ rerankIndices ((["p1", "p2"] : List String).map (fun p => constEmb.sim p "q")) 2 →
        ([1, 0] : List Nat).Sublist
          (rerankIndices ((["p1", "p2"] : List String).map (fun p => constEmb.sim p "q")) 2)) ∧
      rerank_passages constEmb "q" ["p1", "p2"] 2 "list"
        = Except.ok (RetValue.list
            ((rerankIndices ((["p1", "p2"] : List String).map (fun p => constEmb.sim p "q")) 2).map
              (fun x => (["p1", "p2"] : List String).getD x "")))) :=
  ⟨by decide,
    rerank_ties_reverse_candidate_order constEmb "q" ["p1", "p2"] 2 0 1 (by decide) (by decide) rfl⟩

/-- C4 (code bug): with caching enabled and the cache file present, both
`Retriever.__init__` and `HybridRetriever.__init__` load the cached corpus
into the attribute `self.split_docs` (third conjunct) but then crash with
`UnboundLocalError` when line 162 / 233 reads the function-local
`split_docs`, which is only assigned on the re-chunk path — construction
does not succeed, no engine is returned. -/
theorem init_cache_hit_name_error (cachedDocs freshDocs : List String) :
    retrieverInit true true cachedDocs freshDocs = Except.error PyError.nameError ∧
    hybridRetrieverInit true true cachedDocs freshDocs = Except.error PyError.nameError ∧
    (initLocalsAfterBranch true true cachedDocs freshDocs).selfSplitDocs = some cachedDocs :=
  ⟨rfl, rfl, rfl⟩

/-- C5 counterexample: the lexical-only engine (`Retriever.retrieve`) with
`return_type="xml"` does *not* fail — it performs the lexical call and
then falls off the end of the function, returning Python `None`. -/
theorem lexical_invalid_return_type_no_error :
    (lexRetrieve (fun _ => ["doc1"]) "q" "xml").1 = Except.ok RetValue.pyNone ∧
    (lexRetrieve (fun _ => ["doc1"]) "q" "xml").2 = [Effect.lexical] :=
  ⟨rfl, rfl⟩

/-- C5 (amended): only `HybridRetriever.retrieve` validates `return_type`:
with an unrecognised value it fails with the `assert`'s `AssertionError`
(the spec's `InvalidArgument`) before any lexical or embedding call (empty
effect log), while the lexical-only `Retriever.retrieve` performs its
lexical call and returns `None` instead of failing. -/
theorem hybrid_invalid_return_type_asserts_early (E : EmbeddingService)
    (L : String → List String) (q : String) (k : Nat) (rt : String)
    (h : recognizedReturnType rt = false) :
    hybridRetrieve E L q k rt = (Except.error PyError.assertionError, []) ∧
    PyError.assertionError.isInvalidArgument = true ∧
    (lexRetrieve L q rt).1 = Except.ok RetValue.pyNone ∧
    (lexRetrieve L q rt).2 = [Effect.lexical] := by
  have hmem : pyLower rt ∉ (["list", "text", "str", "string"] : List String) := by
    intro hmem
    have hcontra : recognizedReturnType rt = true := by
      rw [recognizedReturnType]
      exact List.elem_eq_true_of_mem hmem
    rw [h] at hcontra
    exact Bool.false_ne_true hcontra
  have h1 : ¬ pyLower rt = "list" := by
    intro he
    exact hmem (by rw [he]; simp)
  have h2 : ¬ ((["text", "str", "string"] : List String).contains (pyLower rt) = true) := by
    intro he
    have hm : pyLower rt ∈ (["text", "str", "string"] : List String) :=
      List.mem_of_elem_eq_true he
    apply hmem
    simp only [List.mem_cons] at hm ⊢
    tauto
  refine ⟨?_, rfl, ?_, rfl⟩
  · rw [hybridRetrieve, if_neg (by rw [h]; exact Bool.false_ne_true)]
  · rw [lexRetrieve]
    simp only [if_neg h1, if_neg h2]

theorem hybrid_invalid_return_type_asserts_early_witness :
    recognizedReturnType "xml" = false ∧
    (hybridRetrieve constEmb (fun _ => ["doc1"]) "q" 2 "xml"
        = (Except.error PyError.assertionError, []) ∧
      PyError.assertionError.isInvalidArgument = true ∧
      (lexRetrieve (fun _ => ["doc1"]) "q" "xml").1 = Except.ok RetValue.pyNone ∧
      (lexRetrieve (fun _ => ["doc1"]) "q" "xml").2 = [Effect.lexical]) :=
  ⟨rfl, hybrid_invalid_return_type_asserts_early constEmb (fun _ => ["doc1"]) "q" 2 "xml" rfl⟩

/-- C6: calling the contrastive engine with an empty candidate list fails:
sklearn's `cosine_similarity` rejects the empty embedding matrix with a
`ValueError`, the code-level realisation of the spec's `InvalidArgument`
for empty candidates (§7). -/
theorem tri_empty_candidates_value_error (E : EmbeddingService) (q d rt : String) :
    (triRetrieverRetrieve E q d [] rt).1 = Except.error PyError.valueError ∧
    PyError.valueError.isInvalidArgument = true :=
  ⟨rfl, rfl⟩

/-- C7 (code bug): the public `TriRetriever.retrieve` accepts a
`return_type` argument but does not forward it to `_tri_retrieve` (line
111), which therefore always runs with its default `"list"`: for *every*
`return_type` the result is `_tri_retrieve(..., "list")`, and in particular
`return_type="text"` still yields a one-element list, not a trimmed
string. -/
theorem tri_public_retrieve_ignores_return_type :
    (∀ (E : EmbeddingService) (q d : String) (ps : List String) (rt : String),
      triRetrieverRetrieve E q d ps rt = tri_retrieve E q d ps "list") ∧
    (triRetrieverRetrieve constEmb "q" "d" ["pp"] "text").1 = Except.ok (RetValue.list ["pp"]) := by
  refine ⟨fun E q d ps rt => rfl, ?_⟩
  have htop : triTopIndex constEmb "q" "d" ["pp"] = some 0 := by
    rw [triTopIndex]
    simp [triFinalSims, constEmb, argsort, List.insertionSort, List.orderedInsert,
      List.range_succ, rerankIndices]
  rw [triRetrieverRetrieve, tri_retrieve, if_neg (by decide), if_neg (by decide), htop]
  rfl

/-- C8 counterexample: in the lexical-only engine a text-like
`return_type` yields the plain `"\n".join` with *no* trimming: for the
single passage `" x "` the output keeps its surrounding whitespace,
whereas the claimed trimmed form would be `"x"`. -/
theorem lexical_text_output_not_stripped :
    (lexRetrieve (fun _ => [" x "]) "q" "text").1 = Except.ok (RetValue.text " x ") ∧
    pyStrip " x " = "x" ∧
    (" x " : String) ≠ "x" := by
  refine ⟨rfl, rfl, ?_⟩
  decide

/-- C8 (amended): the hybrid (and contrastive) text-like formatting equals
joining the selected texts with `"\n"` and stripping the result; the
lexical-only engine joins with `"\n"` but does *not* strip.  On the
whitespace-free example `["alpha text", "beta text"]` both produce exactly
`"alpha text\nbeta text"` with no trailing newline, including through the
full hybrid pipeline. -/
theorem text_formatting_join_and_strip (lst : List String) (L : String → List String)
    (hL : L "q" = ["alpha text", "beta text"]) :
    formatTextOrList lst "text" = RetValue.text (pyStrip (pyJoin "\n" lst)) ∧
    (lexRetrieve L "q" "text").1 = Except.ok (RetValue.text (pyJoin "\n" (L "q"))) ∧
    (lexRetrieve L "q" "text").1 = Except.ok (RetValue.text "alpha text\nbeta text") ∧
    formatTextOrList ["alpha text", "beta text"] "text" = RetValue.text "alpha text\nbeta text" ∧
    (hybridRetrieve abEmb (fun _ => ["alpha text", "beta text"]) "q" 2 "text").1
      = Except.ok (RetValue.text "alpha text\nbeta text") := by
  refine ⟨?_, rfl, ?_, rfl, ?_⟩
  · have h0 : formatTextOrList lst "text" = RetValue.text (pyStrip (joinWithNewlines lst)) := rfl
    rw [h0, pyStrip_joinWithNewlines]
  · have h1 : (lexRetrieve L "q" "text").1 = Except.ok (RetValue.text (pyJoin "\n" (L "q"))) := rfl
    rw [h1, hL]
    rfl
  · have hsort : argsort (["alpha text", "beta text"].map (fun p => abEmb.sim p "q")) = [1, 0] := by
      simp [argsort, List.insertionSort, List.orderedInsert, List.range_succ, abEmb]
      norm_num
    rw [hybridRetrieve, if_pos (show recognizedReturnType "text" = true from rfl)]
    simp only [rerank_passages, rerankIndices, hsort]
    rw [if_neg (by simp)]
    rfl

theorem text_formatting_join_and_strip_witness :
    (fun _ : String => ["alpha text", "beta text"]) "q" = ["alpha text", "beta text"] ∧
    (formatTextOrList [] "text" = RetValue.text (pyStrip (pyJoin "\n" [])) ∧
      (lexRetrieve (fun _ => ["alpha text", "beta text"]) "q" "text").1
        = Except.ok (RetValue.text (pyJoin "\n"
            ((fun _ : String => ["alpha text", "beta text"]) "q"))) ∧
      (lexRetrieve (fun _ => ["alpha text", "beta text"]) "q" "text").1
        = Except.ok (RetValue.text "alpha text\nbeta text") ∧
      formatTextOrList ["alpha text", "beta text"] "text"
        = RetValue.text "alpha text\nbeta text" ∧
      (hybridRetrieve abEmb (fun _ => ["alpha text", "beta text"]) "q" 2 "text").1
        = Except.ok (RetValue.text "alpha text\nbeta text")) :=
  ⟨rfl, text_formatting_join_and_strip [] (fun _ => ["alpha text", "beta text"]) rfl⟩

/-- C9: for `0 ≤ o < c`, `split_document_with_overlap` is deterministic
(a pure function of its arguments, first conjunct), every chunk `i` is the
slice of length `≤ c` starting at `i·(c - o)` — so each chunk after the
first starts exactly `c - o` characters after the previous one — and
every chunk with a successor has length exactly `c`, i.e. a chunk shorter
than `c` can only be the last one. -/
theorem split_document_chunk_layout (d : List Char) (c o : Nat) (ho : o < c) :
    split_document_with_overlap d c o = split_document_with_overlap d c o ∧
    ∃ res, split_document_with_overlap d c o = some res ∧
      (∀ i, i < res.length → res.getD i [] = pySlice d (i * (c - o)) c) ∧
      (∀ i, i + 1 < res.length → (res.getD i []).length = c) := by
  refine ⟨rfl, ?_⟩
  have hsome := splitLoop_isSome d c o ho (d.length + 1) 0 [] (by omega)
  obtain ⟨res, hres⟩ := Option.isSome_iff_exists.mp hsome
  obtain ⟨m, hform, hlen⟩ := splitLoop_closedForm d c o (d.length + 1) 0 [] res hres
  rw [List.nil_append] at hform
  have hform' : res = (List.range m).map (fun j => pySlice d (j * (c - o)) c) := by
    rw [hform]
    apply List.map_congr_left
    intro j _
    rw [Nat.zero_add]
  have hlen' : ∀ j, j + 1 < m → (pySlice d (j * (c - o)) c).length = c := by
    intro j hj
    have := hlen j hj
    rwa [Nat.zero_add] at this
  have hreslen : res.length = m := by rw [hform']; simp
  have hget : ∀ i, i < res.length → res.getD i [] = pySlice d (i * (c - o)) c := by
    intro i hi
    have him : i < m := by rwa [hreslen] at hi
    rw [hform', List.getD_eq_getElem _ _ (by simpa using him)]
    simp
  refine ⟨res, hres, hget, ?_⟩
  · intro i hi
    have him : i + 1 < m := by rwa [hreslen] at hi
    rw [hget i (by omega)]
    exact hlen' i him

theorem split_document_chunk_layout_witness :
    (2 : Nat) < 5 ∧
    (split_document_with_overlap "abcdefghij".data 5 2
        = split_document_with_overlap "abcdefghij".data 5 2 ∧
      ∃ res, split_document_with_overlap "abcdefghij".data 5 2 = some res ∧
        (∀ i, i < res.length → res.getD i [] = pySlice "abcdefghij".data (i * (5 - 2)) 5) ∧
        (∀ i, i + 1 < res.length → (res.getD i []).length = 5)) :=
  ⟨by decide, split_document_chunk_layout "abcdefghij".data 5 2 (by decide)⟩

/-- C10: for `0 ≤ o < c` the chunking loop terminates (fuel
`d.length + 1` suffices, first conjunct), and the precondition matters: at
`o = c` the loop makes no progress whenever the document is at least one
full chunk long, so no amount of fuel completes it (second conjunct). -/
theorem split_document_terminates (d : List Char) (c o : Nat) (ho : o < c) :
    (split_document_with_overlap d c o).isSome = true ∧
    (c ≤ d.length → ∀ fuel acc, splitLoop d c c fuel 0 acc = none) := by
  constructor
  · exact splitLoop_isSome d c o ho (d.length + 1) 0 [] (by omega)
  · intro hcd fuel
    induction fuel with
    | zero => intro acc; rfl
    | succ f ih =>
      intro acc
      rw [splitLoop]
      have hs : 0 < d.length := by omega
      rw [if_pos hs]
      have hchunk : (pySlice d 0 c).length = c := by
        rw [pySlice_length]; omega
      have hns : ¬ (pySlice d 0 c).length < c := by omega
      rw [if_neg hns]
      simpa [Nat.sub_self] using ih (acc ++ [pySlice d 0 c])

theorem split_document_terminates_witness :
    (2 : Nat) < 5 ∧
    ((split_document_with_overlap "abcde".data 5 2).isSome = true ∧
      (5 ≤ "abcde".data.length → ∀ fuel acc, splitLoop "abcde".data 5 5 fuel 0 acc = none)) :=
  ⟨by decide, split_document_terminates "abcde".data 5 2 (by decide)⟩
